import Mathlib

/-!
Shallow embedding of the candidate-enumeration, variant-expansion and
trial-scheduling engine of the `pdf-numeric-bruteforce` repository
(`src/pdf_crack_numeric_len.py`, `src/v-3/pdf_crack_numeric_len.py`,
`src/v-4/pdf_crack_commercial.py`).

Python strings are modelled as `List Char`, byte strings as `List Nat`
(one entry per byte), and wall-clock readings as an abstract function
`clock : Nat → ℚ` giving the elapsed seconds observed at the k-th
`time.time()` read after the start of the run.  The external PDF
validator (`attempt_open`) is modelled as a function returning
`Except Unit Bool`: `Except.ok b` is a normal boolean return and
`Except.error ()` is a raised exception.
-/

namespace PdfCrack

/-! ## Candidate enumeration (`src/pdf_crack_numeric_len.py`) -/

/-- Embeds `unknown_indices = [i for i, ch in enumerate(pattern) if ch == "*"]`
(`main`, line 261): the ascending list of wildcard positions. -/
def unknown_indices (pattern : List Char) : List Nat :=
  (List.range pattern.length).filter (fun i => pattern.getD i ' ' == '*')

/-- Embeds `build_candidate_from_pattern` (lines 231-235): copy the pattern
and overwrite each wildcard position with the paired replacement digit. -/
def build_candidate_from_pattern (pattern : List Char) (replacement_digits : List Char)
    (unknown_idx : List Nat) : List Char :=
  (unknown_idx.zip replacement_digits).foldl (fun s pd => s.set pd.1 pd.2) pattern

/-- The digit alphabet `"0123456789"` iterated by `itertools.product`. -/
def digitChars : List Char := "0123456789".toList

/-- Embeds `itertools.product("0123456789", repeat=k)`: all length-`k` digit
tuples, the rightmost position varying fastest. -/
def product10 : Nat → List (List Char)
  | 0 => [[]]
  | k + 1 => digitChars.flatMap (fun d => (product10 k).map (fun t => d :: t))

/-- Embeds `candidate_generator` (lines 277-281): one candidate per digit
tuple, built by `build_candidate_from_pattern`. -/
def candidate_generator (pattern : List Char) : List (List Char) :=
  (product10 (unknown_indices pattern).length).map
    (fun digits => build_candidate_from_pattern pattern digits (unknown_indices pattern))

/-- The `k`-digit zero-padded decimal representation of `i`
(the value of `str(val).zfill(n)` for `val < 10 ** n`). -/
def padDigits : Nat → Nat → List Char
  | 0, _ => []
  | k + 1, i => Nat.digitChar (i / 10 ^ k) :: padDigits k (i % 10 ^ k)

/-- Reads a digit string back as a base-10 integer (most significant first). -/
def digitsVal (ds : List Char) : Nat :=
  ds.foldl (fun acc c => acc * 10 + (c.toNat - 48)) 0

/-- Embeds `generate_last4_from_mask` (`src/v-4/pdf_crack_commercial.py`,
lines 90-111): yield the literal mask when it has no wildcard, otherwise
replace the wildcard positions by the zero-filled digits of
`val = 0, …, 10 ** n - 1` in order. -/
def generate_last4_from_mask (mask : List Char) : List (List Char) :=
  let wc_positions := (List.range mask.length).filter (fun i => mask.getD i ' ' == '*')
  if wc_positions.isEmpty then [mask]
  else
    (List.range (10 ^ wc_positions.length)).map (fun val =>
      (wc_positions.zip (padDigits wc_positions.length val)).foldl
        (fun s pd => s.set pd.1 pd.2) mask)

/-! ## Variant expansion (`src/v-4/pdf_crack_commercial.py`, `build_variants`) -/

/-- A trial payload: either a Python `str` or a Python `bytes` object.
Equality of two `Variant`s coincides with equality of the dedup keys used by
`build_variants` (`v` for a `str`, `("B", v)` for `bytes`): two payloads of
different Python types are never identified. -/
inductive Variant where
  | str (s : List Char)
  | bytes (b : List Nat)
  deriving DecidableEq

/-- UTF-8 encoding of one code point (`str.encode("utf-8")`, per character). -/
def utf8Char (n : Nat) : List Nat :=
  if n < 128 then [n]
  else if n < 2048 then [192 + n / 64, 128 + n % 64]
  else if n < 65536 then [224 + n / 4096, 128 + n / 64 % 64, 128 + n % 64]
  else [240 + n / 262144, 128 + n / 4096 % 64, 128 + n / 64 % 64, 128 + n % 64]

/-- `s.encode("utf-8")`. -/
def utf8Encode (s : List Char) : List Nat := s.flatMap (fun c => utf8Char c.toNat)

/-- UTF-16 code units of one code point (surrogate pair above the BMP). -/
def utf16Units (n : Nat) : List Nat :=
  if n < 65536 then [n]
  else [55296 + (n - 65536) / 1024, 56320 + (n - 65536) % 1024]

/-- `s.encode("utf-16-le")` (no BOM: each unit little-endian). -/
def utf16leEncode (s : List Char) : List Nat :=
  (s.flatMap (fun c => utf16Units c.toNat)).flatMap (fun u => [u % 256, u / 256])

/-- `s.encode("utf-16-be")` (no BOM: each unit big-endian). -/
def utf16beEncode (s : List Char) : List Nat :=
  (s.flatMap (fun c => utf16Units c.toNat)).flatMap (fun u => [u / 256, u % 256])

/-- Embeds the `seen`-set deduplication loop of `build_variants`
(lines 133-141): keep the first occurrence of each payload, drop later
duplicates. -/
def dedupFirst (seen : List Variant) : List Variant → List Variant
  | [] => []
  | v :: rest => if v ∈ seen then dedupFirst seen rest
                 else v :: dedupFirst (v :: seen) rest

/-- Embeds `build_variants` (lines 113-142): the eight generated payloads, in
declared order, after first-occurrence deduplication. -/
def build_variants (candidate : List Char) : List Variant :=
  dedupFirst []
    [Variant.str candidate,
     Variant.str candidate.reverse,
     Variant.bytes (utf8Encode candidate),
     Variant.bytes (utf8Encode candidate.reverse),
     Variant.bytes (utf16leEncode candidate),
     Variant.bytes (utf16leEncode candidate.reverse),
     Variant.bytes (utf16beEncode candidate),
     Variant.bytes (utf16beEncode candidate.reverse)]

/-! ## The pypdf byte-credential decode loop
(`src/v-4/pdf_crack_commercial.py`, `try_open_with_pypdf`, lines 50-61) -/

/-- Strict UTF-8 decoding to code points (`bytes.decode("utf-8")`): rejects
truncated or malformed sequences, overlong forms, surrogates and values
beyond U+10FFFF. -/
def utf8Decode : List Nat → Option (List Nat)
  | [] => some []
  | b :: rest =>
    if b < 128 then (utf8Decode rest).map (fun t => b :: t)
    else if b < 194 then none
    else if b < 224 then
      match rest with
      | c1 :: rest1 =>
        if 128 ≤ c1 ∧ c1 < 192 then
          (utf8Decode rest1).map (fun t => ((b - 192) * 64 + (c1 - 128)) :: t)
        else none
      | [] => none
    else if b < 240 then
      match rest with
      | c1 :: c2 :: rest2 =>
        if 128 ≤ c1 ∧ c1 < 192 ∧ 128 ≤ c2 ∧ c2 < 192 then
          let cp := (b - 224) * 4096 + (c1 - 128) * 64 + (c2 - 128)
          if cp < 2048 ∨ (55296 ≤ cp ∧ cp < 57344) then none
          else (utf8Decode rest2).map (fun t => cp :: t)
        else none
      | _ => none
    else if b < 245 then
      match rest with
      | c1 :: c2 :: c3 :: rest3 =>
        if 128 ≤ c1 ∧ c1 < 192 ∧ 128 ≤ c2 ∧ c2 < 192 ∧ 128 ≤ c3 ∧ c3 < 192 then
          let cp := (b - 240) * 262144 + (c1 - 128) * 4096 + (c2 - 128) * 64 + (c3 - 128)
          if cp < 65536 ∨ 1114111 < cp then none
          else (utf8Decode rest3).map (fun t => cp :: t)
        else none
      | _ => none
    else none

/-- Pair bytes into little-endian UTF-16 code units; odd length fails. -/
def bytesToUnitsLE : List Nat → Option (List Nat)
  | [] => some []
  | [_] => none
  | b0 :: b1 :: rest => (bytesToUnitsLE rest).map (fun t => (b0 + 256 * b1) :: t)

/-- Pair bytes into big-endian UTF-16 code units; odd length fails. -/
def bytesToUnitsBE : List Nat → Option (List Nat)
  | [] => some []
  | [_] => none
  | b0 :: b1 :: rest => (bytesToUnitsBE rest).map (fun t => (256 * b0 + b1) :: t)

/-- Combine UTF-16 code units into code points; lone surrogates fail. -/
def combineSurrogates : List Nat → Option (List Nat)
  | [] => some []
  | u :: rest =>
    if u < 55296 ∨ 57344 ≤ u then (combineSurrogates rest).map (fun t => u :: t)
    else if u < 56320 then
      match rest with
      | u2 :: rest2 =>
        if 56320 ≤ u2 ∧ u2 < 57344 then
          (combineSurrogates rest2).map
            (fun t => (65536 + (u - 55296) * 1024 + (u2 - 56320)) :: t)
        else none
      | [] => none
    else none

/-- Code points to a Python `str`. -/
def codepointsToChars (cps : List Nat) : List Char := cps.map Char.ofNat

/-- `bytes.decode("utf-8")` producing a `str`. -/
def utf8DecodeStr (bs : List Nat) : Option (List Char) :=
  (utf8Decode bs).map codepointsToChars

/-- `bytes.decode("utf-16-le")`. -/
def utf16leDecodeStr (bs : List Nat) : Option (List Char) :=
  ((bytesToUnitsLE bs).bind combineSurrogates).map codepointsToChars

/-- `bytes.decode("utf-16-be")`. -/
def utf16beDecodeStr (bs : List Nat) : Option (List Char) :=
  ((bytesToUnitsBE bs).bind combineSurrogates).map codepointsToChars

/-- `bytes.decode("latin1")`: every byte maps to the code point of the same
value, so this decoding never fails. -/
def latin1DecodeStr (bs : List Nat) : Option (List Char) :=
  some (bs.map Char.ofNat)

/-- Embeds the decode loop of `try_open_with_pypdf` (lines 53-59): try
`utf-8`, `utf-16-le`, `utf-16-be`, `latin1` in order, keeping the first
decoding that succeeds (`none` = every decoding raised, leaving `pwd = None`). -/
def pypdf_decode_loop (password : List Nat) : Option (List Char) :=
  match utf8DecodeStr password with
  | some s => some s
  | none =>
    match utf16leDecodeStr password with
    | some s => some s
    | none =>
      match utf16beDecodeStr password with
      | some s => some s
      | none => latin1DecodeStr password

/-- Embeds lines 60-61: `if pwd is None: pwd = ""  # fallback`. -/
def pypdf_pwd (password : List Nat) : List Char :=
  match pypdf_decode_loop password with
  | some s => s
  | none => []

/-! ## Trial running

`runTrial` embeds the per-trial pattern
`try: ok = attempt_open(...) except Exception: ok = False`
present in both `main` loops (file 1 lines 299-302, v-4 lines 207-210). -/

/-- One guarded validator invocation: a raised exception is recorded as a
failed trial. -/
def runTrial {α : Type} (validate : α → Except Unit Bool) (x : α) : Bool :=
  match validate x with
  | Except.ok b => b
  | Except.error _ => false

/-- One line of `output.txt` as written by `src/pdf_crack_numeric_len.py`:
four metadata header lines, the CSV column-title line, one line per attempt,
and the `SUCCESS,...` / `STOPPED,...` summary line (lines 286-288, 305-306,
328-332). -/
inductive LogLine1 where
  | startLine
  | pdfLine
  | lengthLine
  | patternLine
  | columnsLine
  | attemptLine (idx : Nat) (password : List Char) (pass : Bool) (elapsed : ℚ)
  | successLine (password : List Char) (attempts : Nat) (elapsed : ℚ)
  | stoppedLine (attempts : Nat) (elapsed : ℚ)
  deriving DecidableEq

/-- The header block of file 1's `output.txt`: `Start:`, `PDF:`, `Length:`,
`Pattern:` (one `f.write` with four newlines, line 287) followed by the
column-title line `Attempt,Password,Result,ElapsedSeconds` (line 288). -/
def header1 : List LogLine1 :=
  [LogLine1.startLine, LogLine1.pdfLine, LogLine1.lengthLine,
   LogLine1.patternLine, LogLine1.columnsLine]

/-- Output of the trial loop of file 1's `main` (lines 295-323). `calls`
counts the invocations of `attempt_open`. -/
structure Loop1Out where
  lines : List LogLine1
  attempts : Nat
  calls : Nat
  found_password : Option (List Char)
  deriving DecidableEq

/-- The trial loop of `src/pdf_crack_numeric_len.py` `main` (lines 295-323):
per candidate, increment the attempt counter, read the clock, run one guarded
trial, append one attempt line, and stop on the first `PASS`.  `cancel = some t`
models a `KeyboardInterrupt` observed at the loop boundary once `t` attempts
have completed; `cancel = none` is an uninterrupted run. -/
def run1loop (validate : List Char → Except Unit Bool) (clock : Nat → ℚ)
    (cancel : Option Nat) : List (List Char) → Nat → Loop1Out
  | [], a => ⟨[], a, 0, none⟩
  | c :: rest, a =>
    if cancel = some a then ⟨[], a, 0, none⟩
    else
      let ok := runTrial validate c
      let line := LogLine1.attemptLine (a + 1) c ok (clock a)
      if ok then ⟨[line], a + 1, 1, some c⟩
      else
        let r := run1loop validate clock cancel rest (a + 1)
        ⟨line :: r.lines, r.attempts, r.calls + 1, r.found_password⟩

/-- Result of a whole run of file 1's `main`. -/
structure Run1Result where
  log : List LogLine1
  attempts : Nat
  calls : Nat
  found_password : Option (List Char)
  deriving DecidableEq

/-- A whole run of `src/pdf_crack_numeric_len.py` `main`: header block, trial
loop, then exactly one summary line — `SUCCESS,...` when a password was found,
`STOPPED,...` otherwise (lines 326-332; the same `STOPPED` line is written
whether the loop was interrupted or exhausted the keyspace). -/
def run1 (validate : List Char → Except Unit Bool) (clock : Nat → ℚ)
    (cancel : Option Nat) (cands : List (List Char)) : Run1Result :=
  let r := run1loop validate clock cancel cands 0
  let te := clock r.attempts
  let summary := match r.found_password with
    | some pw => LogLine1.successLine pw r.attempts te
    | none => LogLine1.stoppedLine r.attempts te
  ⟨header1 ++ r.lines ++ [summary], r.attempts, r.calls, r.found_password⟩

/-- `true` exactly on file 1's terminal summary lines. -/
def isSummary1 : LogLine1 → Bool
  | LogLine1.successLine _ _ _ => true
  | LogLine1.stoppedLine _ _ => true
  | _ => false

/-- The elapsed-seconds field of an attempt line, `none` on other lines. -/
def attemptElapsed1 : LogLine1 → Option ℚ
  | LogLine1.attemptLine _ _ _ e => some e
  | _ => none

/-- One line of `output.txt` as written by `src/v-4/pdf_crack_commercial.py`:
three metadata header lines and the column-title line (lines 189-193), one
line per variant trial (line 220), then a blank line, a `SUCCESS:` or
`COMPLETE:` outcome line, and a `Total attempts: ...` line (lines 231-239). -/
inductive LogLine4 where
  | startLine
  | pdfLine
  | maskLine
  | columnsLine
  | attemptLine (idx : Nat) (payload : Variant) (pass : Bool) (elapsed : ℚ)
  | blankLine
  | successLine (core : List Char) (variant : Variant) (attempt : Nat) (elapsed : ℚ)
  | completeLine
  | totalsLine (attempts : Nat) (elapsed : ℚ)
  deriving DecidableEq

/-- The header block of v-4's `output.txt` (lines 189-193). -/
def header4 : List LogLine4 :=
  [LogLine4.startLine, LogLine4.pdfLine, LogLine4.maskLine, LogLine4.columnsLine]

/-- Output of the inner variant loop of v-4's `main`. -/
structure Try4Out where
  lines : List LogLine4
  calls : Nat
  found : Option Variant
  deriving DecidableEq

/-- The inner variant loop of v-4's `main` (lines 203-225): try each variant
of the current candidate in order with the attempt index `a` and elapsed
reading `e` fixed for the whole candidate, log one line per trial, and break
on the first `PASS`. -/
def tryVariants (validate : Variant → Except Unit Bool) (a : Nat) (e : ℚ) :
    List Variant → Try4Out
  | [] => ⟨[], 0, none⟩
  | v :: rest =>
    let ok := runTrial validate v
    let line := LogLine4.attemptLine a v ok e
    if ok then ⟨[line], 1, some v⟩
    else
      let r := tryVariants validate a e rest
      ⟨line :: r.lines, r.calls + 1, r.found⟩

/-- Output of the outer candidate loop of v-4's `main`. `calls` counts the
invocations of `attempt_open`. -/
structure Loop4Out where
  lines : List LogLine4
  calls : Nat
  attempts : Nat
  found_info : Option (List Char × Variant × Nat × ℚ)
  deriving DecidableEq

/-- The outer candidate loop of v-4's `main` (lines 196-228): per candidate,
increment the attempt counter once, read the clock once, expand the candidate
with `build_variants`, run the inner variant loop, and stop as soon as it
reports a `PASS`. -/
def run4loop (validate : Variant → Except Unit Bool) (clock : Nat → ℚ) :
    List (List Char) → Nat → Loop4Out
  | [], a => ⟨[], 0, a, none⟩
  | cand :: rest, a =>
    let e := clock a
    let t := tryVariants validate (a + 1) e (build_variants cand)
    match t.found with
    | some v => ⟨t.lines, t.calls, a + 1, some (cand, v, a + 1, e)⟩
    | none =>
      let r := run4loop validate clock rest (a + 1)
      ⟨t.lines ++ r.lines, t.calls + r.calls, r.attempts, r.found_info⟩

/-- Result of a whole run of v-4's `main`. -/
structure Run4Result where
  log : List LogLine4
  calls : Nat
  attempts : Nat
  found_info : Option (List Char × Variant × Nat × ℚ)
  deriving DecidableEq

/-- A whole run of `src/v-4/pdf_crack_commercial.py` `main`: header block,
candidate loop, then the terminal block — a blank line followed by
`SUCCESS: ...` or `COMPLETE: ...` and by `Total attempts: ...` (lines
230-239).  v-4 installs no `KeyboardInterrupt` handler, so no cancellation
outcome exists for this runner. -/
def run4 (validate : Variant → Except Unit Bool) (clock : Nat → ℚ)
    (cands : List (List Char)) : Run4Result :=
  let r := run4loop validate clock cands 0
  let te := clock r.attempts
  let tail := match r.found_info with
    | some (core, v, a1, el) =>
      [LogLine4.blankLine, LogLine4.successLine core v a1 el,
       LogLine4.totalsLine r.attempts te]
    | none =>
      [LogLine4.blankLine, LogLine4.completeLine, LogLine4.totalsLine r.attempts te]
  ⟨header4 ++ r.lines ++ tail, r.calls, r.attempts, r.found_info⟩

/-- `true` exactly on v-4's outcome-kind summary lines. -/
def isSummary4 : LogLine4 → Bool
  | LogLine4.successLine _ _ _ _ => true
  | LogLine4.completeLine => true
  | _ => false

/-- `true` exactly on v-4's `Total attempts: ...` line. -/
def isTotals4 : LogLine4 → Bool
  | LogLine4.totalsLine _ _ => true
  | _ => false

/-! ## Progress reporting (`src/pdf_crack_numeric_len.py`, lines 308-318) -/

/-- Embeds `rate = attempt / max(1e-6, elapsed)` (line 309). -/
def progress_rate (attempt : Nat) (elapsed : ℚ) : ℚ :=
  (attempt : ℚ) / max (1 / 1000000) elapsed

/-- Embeds `rem = max(0, total_space - attempt)` and
`eta = rem / rate if rate > 0 else float("inf")` (lines 310-311); `none`
models the `float("inf")` sentinel. -/
def progress_eta (attempt total : Nat) (elapsed : ℚ) : Option ℚ :=
  let rate := progress_rate attempt elapsed
  let rem := max 0 ((total : ℤ) - (attempt : ℤ))
  if 0 < rate then some ((rem : ℚ) / rate) else none

/-! ## Lemmas: candidate enumeration -/

theorem padDigits_length (k i : Nat) : (padDigits k i).length = k := by
  induction k generalizing i with
  | zero => rfl
  | succ k ih => simp [padDigits, ih]

theorem digitChars_eq : digitChars = (List.range 10).map Nat.digitChar := by decide

theorem range_mul_flatMap (a b : Nat) :
    List.range (a * b) =
      (List.range a).flatMap (fun d => (List.range b).map (fun r => d * b + r)) := by
  induction a with
  | zero => simp
  | succ a ih =>
    rw [Nat.succ_mul, List.range_add, ih, List.range_succ, List.flatMap_append]
    simp

theorem flatMap_congr {α β : Type} {l : List α} {f g : α → List β}
    (h : ∀ x ∈ l, f x = g x) : l.flatMap f = l.flatMap g := by
  induction l with
  | nil => rfl
  | cons a l ih =>
    simp only [List.flatMap_cons]
    rw [h a (by simp), ih (fun x hx => h x (by simp [hx]))]

theorem padDigits_split {k d r : Nat} (hr : r < 10 ^ k) :
    padDigits (k + 1) (d * 10 ^ k + r) = Nat.digitChar d :: padDigits k r := by
  have hpos : 0 < (10 : Nat) ^ k := pow_pos (by norm_num) k
  show Nat.digitChar ((d * 10 ^ k + r) / 10 ^ k) ::
      padDigits k ((d * 10 ^ k + r) % 10 ^ k) = _
  congr 2
  · rw [Nat.mul_comm d, Nat.mul_add_div hpos, Nat.div_eq_of_lt hr, Nat.add_zero]
  · rw [Nat.mul_comm d, Nat.mul_add_mod, Nat.mod_eq_of_lt hr]

theorem product10_eq (k : Nat) :
    product10 k = (List.range (10 ^ k)).map (padDigits k) := by
  induction k with
  | zero => rfl
  | succ k ih =>
    have h10 : (10 : Nat) ^ (k + 1) = 10 * 10 ^ k := by ring
    rw [show product10 (k + 1)
          = digitChars.flatMap (fun d => (product10 k).map (fun t => d :: t)) from rfl,
        digitChars_eq, ih, h10, range_mul_flatMap, List.flatMap_map, List.map_flatMap]
    apply flatMap_congr
    intro d _
    rw [List.map_map, List.map_map]
    apply List.map_congr_left
    intro r hr
    simp only [Function.comp_apply]
    rw [padDigits_split (List.mem_range.mp hr)]

theorem getD_map_range {α : Type} {n i : Nat} (f : Nat → α) (d : α) (h : i < n) :
    ((List.range n).map f).getD i d = f i := by
  rw [List.getD_eq_getElem?_getD, List.getElem?_map, List.getElem?_range h]
  rfl

theorem candidate_generator_eq (pattern : List Char) :
    candidate_generator pattern =
      (List.range (10 ^ (unknown_indices pattern).length)).map
        (fun i => build_candidate_from_pattern pattern
          (padDigits (unknown_indices pattern).length i) (unknown_indices pattern)) := by
  unfold candidate_generator
  rw [product10_eq, List.map_map]
  rfl

theorem candidate_generator_length (pattern : List Char) :
    (candidate_generator pattern).length = 10 ^ (unknown_indices pattern).length := by
  rw [candidate_generator_eq]
  simp

theorem unknown_indices_nodup (pattern : List Char) : (unknown_indices pattern).Nodup :=
  (List.nodup_range _).filter _

theorem unknown_indices_lt (pattern : List Char) :
    ∀ p ∈ unknown_indices pattern, p < pattern.length := by
  intro p hp
  exact List.mem_range.mp (List.mem_filter.mp hp).1

theorem unknown_indices_sorted (pattern : List Char) :
    (unknown_indices pattern).Pairwise (· < ·) :=
  (List.pairwise_lt_range _).filter _

theorem foldl_set_length (l : List (Nat × Char)) (s : List Char) :
    (l.foldl (fun s pd => s.set pd.1 pd.2) s).length = s.length := by
  induction l generalizing s with
  | nil => rfl
  | cons pd l ih => rw [List.foldl_cons, ih, List.length_set]

theorem foldl_set_getElem?_not_mem {q : Nat} (l : List (Nat × Char)) (s : List Char)
    (h : q ∉ l.map Prod.fst) :
    (l.foldl (fun s pd => s.set pd.1 pd.2) s)[q]? = s[q]? := by
  induction l generalizing s with
  | nil => rfl
  | cons pd l ih =>
    simp only [List.map_cons, List.mem_cons] at h
    push_neg at h
    rw [List.foldl_cons, ih _ h.2, List.getElem?_set_ne (Ne.symm h.1)]

theorem build_candidate_length (pattern ds : List Char) (idxs : List Nat) :
    (build_candidate_from_pattern pattern ds idxs).length = pattern.length :=
  foldl_set_length _ _

theorem mem_map_fst_zip {a : Nat} {l : List Nat} {l2 : List Char}
    (h : a ∈ (l.zip l2).map Prod.fst) : a ∈ l := by
  obtain ⟨⟨x, y⟩, hxy, rfl⟩ := List.mem_map.mp h
  exact (List.of_mem_zip hxy).1

theorem build_candidate_fixed (pattern ds : List Char) (idxs : List Nat) {j : Nat}
    (hj : j ∉ idxs) :
    (build_candidate_from_pattern pattern ds idxs)[j]? = pattern[j]? := by
  apply foldl_set_getElem?_not_mem
  intro hmem
  exact hj (mem_map_fst_zip hmem)

theorem build_candidate_readback :
    ∀ (idxs : List Nat) (ds pattern : List Char), idxs.Nodup →
      (∀ p ∈ idxs, p < pattern.length) → ds.length = idxs.length →
      idxs.map (fun p => (build_candidate_from_pattern pattern ds idxs).getD p ' ') = ds := by
  intro idxs
  induction idxs with
  | nil =>
    intro ds pattern _ _ hl
    simp only [List.length_nil, List.length_eq_zero] at hl
    simp [hl]
  | cons p ps ih =>
    intro ds pattern hnd hb hl
    match ds with
    | [] => simp at hl
    | d :: rs =>
      have hbuild : build_candidate_from_pattern pattern (d :: rs) (p :: ps)
          = build_candidate_from_pattern (pattern.set p d) rs ps := rfl
      have hnd' := List.nodup_cons.mp hnd
      have hlen : rs.length = ps.length := by simpa using hl
      simp only [List.map_cons, hbuild]
      congr 1
      · rw [List.getD_eq_getElem?_getD,
          build_candidate_fixed _ _ _ hnd'.1,
          List.getElem?_set_self (hb p (by simp))]
        rfl
      · refine ih rs (pattern.set p d) hnd'.2 ?_ hlen
        intro q hq
        rw [List.length_set]
        exact hb q (by simp [hq])

theorem digitChar_toNat {d : Nat} (h : d < 10) : (Nat.digitChar d).toNat = 48 + d := by
  interval_cases d <;> rfl

theorem digitsVal_aux (k : Nat) :
    ∀ i acc, i < 10 ^ k →
      (padDigits k i).foldl (fun acc c => acc * 10 + (c.toNat - 48)) acc
        = acc * 10 ^ k + i := by
  induction k with
  | zero =>
    intro i acc h
    interval_cases i
    simp [padDigits]
  | succ k ih =>
    intro i acc h
    have hpos : 0 < (10 : Nat) ^ k := pow_pos (by norm_num) k
    have hdiv : i / 10 ^ k < 10 := by
      rw [Nat.div_lt_iff_lt_mul hpos]
      calc i < 10 ^ (k + 1) := h
        _ = 10 * 10 ^ k := by ring
    have hmod : i % 10 ^ k < 10 ^ k := Nat.mod_lt _ hpos
    rw [show padDigits (k + 1) i
          = Nat.digitChar (i / 10 ^ k) :: padDigits k (i % 10 ^ k) from rfl,
        List.foldl_cons, ih (i % 10 ^ k) _ hmod, digitChar_toNat hdiv]
    rw [Nat.add_sub_cancel_left]
    have hdm : 10 ^ k * (i / 10 ^ k) + i % 10 ^ k = i := Nat.div_add_mod i (10 ^ k)
    calc (acc * 10 + i / 10 ^ k) * 10 ^ k + i % 10 ^ k
        = acc * (10 ^ k * 10) + (10 ^ k * (i / 10 ^ k) + i % 10 ^ k) := by ring
      _ = acc * 10 ^ (k + 1) + i := by rw [hdm, pow_succ]

theorem digitsVal_padDigits {k i : Nat} (h : i < 10 ^ k) :
    digitsVal (padDigits k i) = i := by
  have := digitsVal_aux k i 0 h
  simpa [digitsVal] using this

theorem generate_last4_eq (mask : List Char) :
    generate_last4_from_mask mask = candidate_generator mask := by
  rw [candidate_generator_eq]
  simp only [generate_last4_from_mask]
  split
  · next hemp =>
    have h0 : unknown_indices mask = [] := by
      exact List.isEmpty_iff.mp hemp
    rw [h0]
    simp [build_candidate_from_pattern, padDigits, List.range_succ]
  · rfl

/-! ## Lemmas: variant deduplication -/

theorem dedupFirst_sublist (seen : List Variant) (l : List Variant) :
    (dedupFirst seen l).Sublist l := by
  induction l generalizing seen with
  | nil => simp [dedupFirst]
  | cons v rest ih =>
    simp only [dedupFirst]
    split
    · exact (ih seen).cons v
    · exact (ih (v :: seen)).cons₂ v

theorem dedupFirst_not_mem_seen (x : Variant) :
    ∀ (l seen : List Variant), x ∈ dedupFirst seen l → x ∉ seen := by
  intro l
  induction l with
  | nil =>
    intro seen h
    simp [dedupFirst] at h
  | cons v rest ih =>
    intro seen h hseen
    simp only [dedupFirst] at h
    split at h
    · exact ih seen h hseen
    · next hv =>
      rcases List.mem_cons.mp h with rfl | hx2
      · exact hv hseen
      · exact ih (v :: seen) hx2 (List.mem_cons_of_mem _ hseen)

theorem dedupFirst_nodup : ∀ (l seen : List Variant), (dedupFirst seen l).Nodup := by
  intro l
  induction l with
  | nil =>
    intro seen
    simp [dedupFirst]
  | cons v rest ih =>
    intro seen
    simp only [dedupFirst]
    split
    · exact ih seen
    · refine List.nodup_cons.mpr ⟨?_, ih (v :: seen)⟩
      intro hv
      exact dedupFirst_not_mem_seen v rest (v :: seen) hv (by simp)

theorem dedupFirst_complete (x : Variant) :
    ∀ (l seen : List Variant), x ∈ l → x ∉ seen → x ∈ dedupFirst seen l := by
  intro l
  induction l with
  | nil =>
    intro seen h
    simp at h
  | cons v rest ih =>
    intro seen hmem hseen
    simp only [dedupFirst]
    rcases List.mem_cons.mp hmem with rfl | hrest
    · split
      · next hv => exact absurd hv hseen
      · exact List.mem_cons_self _ _
    · split
      · exact ih seen hrest hseen
      · by_cases hxv : x = v
        · subst hxv
          exact List.mem_cons_self _ _
        · refine List.mem_cons_of_mem _ (ih (v :: seen) hrest ?_)
          simp [List.mem_cons, hxv, hseen]

/-! ## Claim theorems: C1, C10, C2 -/

/-- C1: for a pattern with `k` wildcard positions, `candidate_generator`
produces exactly `10 ^ k` candidates (exactly one, the literal pattern, when
`k = 0`); the wildcard index list is strictly ascending; the digits of the
candidate at offset `i` at the wildcard positions, read in ascending position
order, are the `k`-digit zero-padded decimal digits of `i`, whose value is
`i` — so the embedded integer increases strictly from `0` to `10 ^ k - 1`;
every fixed position holds its literal pattern character in every candidate;
and v-4's `generate_last4_from_mask` enumerates exactly the same sequence. -/
theorem C1_candidate_enumeration (pattern : List Char) :
    (candidate_generator pattern).length = 10 ^ (unknown_indices pattern).length ∧
    ((unknown_indices pattern).length = 0 → candidate_generator pattern = [pattern]) ∧
    (unknown_indices pattern).Pairwise (· < ·) ∧
    (∀ i, i < 10 ^ (unknown_indices pattern).length →
      (unknown_indices pattern).map
          (fun p => ((candidate_generator pattern).getD i []).getD p ' ')
        = padDigits (unknown_indices pattern).length i ∧
      digitsVal ((unknown_indices pattern).map
          (fun p => ((candidate_generator pattern).getD i []).getD p ' ')) = i ∧
      (∀ j, j < pattern.length → j ∉ unknown_indices pattern →
        ((candidate_generator pattern).getD i []).getD j ' ' = pattern.getD j ' ')) ∧
    generate_last4_from_mask pattern = candidate_generator pattern := by
  refine ⟨candidate_generator_length pattern, ?_, unknown_indices_sorted pattern, ?_,
    generate_last4_eq pattern⟩
  · intro h0
    have hnil : unknown_indices pattern = [] := List.length_eq_zero.mp h0
    rw [candidate_generator_eq, hnil]
    simp [build_candidate_from_pattern, padDigits, List.range_succ]
  · intro i hi
    have hcand : (candidate_generator pattern).getD i []
        = build_candidate_from_pattern pattern
            (padDigits (unknown_indices pattern).length i) (unknown_indices pattern) := by
      rw [candidate_generator_eq]
      exact getD_map_range _ _ hi
    have hread : (unknown_indices pattern).map
        (fun p => ((candidate_generator pattern).getD i []).getD p ' ')
        = padDigits (unknown_indices pattern).length i := by
      rw [hcand]
      exact build_candidate_readback _ _ _ (unknown_indices_nodup pattern)
        (unknown_indices_lt pattern) (padDigits_length _ _)
    refine ⟨hread, ?_, ?_⟩
    · rw [hread]
      exact digitsVal_padDigits hi
    · intro j hj hjn
      rw [hcand, List.getD_eq_getElem?_getD, List.getD_eq_getElem?_getD,
        build_candidate_fixed _ _ _ hjn]

/-- Witness for C1 at the pattern `"*3"`: offset 7 has digit `'7'` at the
wildcard position. -/
theorem C1_candidate_enumeration_witness :
    7 < 10 ^ (unknown_indices ("*3".toList)).length ∧
    (unknown_indices ("*3".toList)).map
        (fun p => ((candidate_generator ("*3".toList)).getD 7 []).getD p ' ')
      = padDigits (unknown_indices ("*3".toList)).length 7 :=
  ⟨by decide, ((C1_candidate_enumeration ("*3".toList)).2.2.2.1 7 (by decide)).1⟩

/-- C10: for every pattern and every replacement digit tuple,
`build_candidate_from_pattern` applied at the pattern's wildcard index list
returns a string of exactly the pattern's length that agrees with the pattern
at every non-wildcard position. -/
theorem C10_build_candidate (pattern ds : List Char) :
    (build_candidate_from_pattern pattern ds (unknown_indices pattern)).length
      = pattern.length ∧
    ∀ j, j < pattern.length → j ∉ unknown_indices pattern →
      (build_candidate_from_pattern pattern ds (unknown_indices pattern)).getD j ' '
        = pattern.getD j ' ' := by
  refine ⟨build_candidate_length _ _ _, ?_⟩
  intro j hj hjn
  rw [List.getD_eq_getElem?_getD, List.getD_eq_getElem?_getD,
    build_candidate_fixed _ _ _ hjn]

/-- Witness for C10 at pattern `"1*3"` and digits `"5"`. -/
theorem C10_build_candidate_witness :
    (build_candidate_from_pattern ("1*3".toList) ("5".toList)
      (unknown_indices ("1*3".toList))).length = 3 ∧
    (build_candidate_from_pattern ("1*3".toList) ("5".toList)
      (unknown_indices ("1*3".toList))).getD 0 ' ' = '1' := by
  have h := C10_build_candidate ("1*3".toList) ("5".toList)
  exact ⟨h.1.trans (by decide), (h.2 0 (by decide) (by decide)).trans (by decide)⟩

/-- C2 counterexample: `build_variants "0063"` has 8 variants, not the 6 the
claim states (the plain and reversed `str` payloads are produced in addition
to the six byte encodings), and `build_variants "0000"` deduplicates to 4
payloads, not 5. -/
theorem C2_counterexample :
    (build_variants ("0063".toList)).length = 8 ∧
    (build_variants ("0063".toList)).length ≠ 6 ∧
    (build_variants ("0000".toList)).length = 4 ∧
    (build_variants ("0000".toList)).length ≠ 5 := by
  decide

/-- C2 amended: `build_variants` generates eight payloads in the fixed order
plain `str`, reversed `str`, UTF-8 bytes, reversed UTF-8 bytes, UTF-16LE
bytes, reversed UTF-16LE bytes, UTF-16BE bytes, reversed UTF-16BE bytes, then
removes later entries whose type-tagged content equals an earlier entry,
keeping first occurrences (order-preserving, duplicate-free, and containing
every generated payload); `build_variants "0063"` yields 8 distinct variants
and `build_variants "0000"` deduplicates to 4. -/
theorem C2_variant_expansion (s : List Char) :
    build_variants s = dedupFirst []
      [Variant.str s, Variant.str s.reverse,
       Variant.bytes (utf8Encode s), Variant.bytes (utf8Encode s.reverse),
       Variant.bytes (utf16leEncode s), Variant.bytes (utf16leEncode s.reverse),
       Variant.bytes (utf16beEncode s), Variant.bytes (utf16beEncode s.reverse)] ∧
    (build_variants s).Nodup ∧
    (build_variants s).Sublist
      [Variant.str s, Variant.str s.reverse,
       Variant.bytes (utf8Encode s), Variant.bytes (utf8Encode s.reverse),
       Variant.bytes (utf16leEncode s), Variant.bytes (utf16leEncode s.reverse),
       Variant.bytes (utf16beEncode s), Variant.bytes (utf16beEncode s.reverse)] ∧
    (∀ v ∈ ([Variant.str s, Variant.str s.reverse,
       Variant.bytes (utf8Encode s), Variant.bytes (utf8Encode s.reverse),
       Variant.bytes (utf16leEncode s), Variant.bytes (utf16leEncode s.reverse),
       Variant.bytes (utf16beEncode s), Variant.bytes (utf16beEncode s.reverse)] :
         List Variant), v ∈ build_variants s) ∧
    (build_variants ("0063".toList)).length = 8 ∧
    (build_variants ("0000".toList)).length = 4 := by
  refine ⟨rfl, dedupFirst_nodup _ _, dedupFirst_sublist _ _, ?_, by decide, by decide⟩
  intro v hv
  exact dedupFirst_complete v _ [] hv (by simp)

/-- Witness for C2 amended: the reversed `str` payload of `"12"` is among its
variants. -/
theorem C2_variant_expansion_witness :
    Variant.str ("21".toList) ∈ build_variants ("12".toList) :=
  (C2_variant_expansion ("12".toList)).2.2.2.1 (Variant.str ("21".toList)) (by decide)

/-! ## Lemmas: the v-4 trial loop -/

theorem tryVariants_allfail (validate : Variant → Except Unit Bool) (a : Nat) (e : ℚ) :
    ∀ vs : List Variant, (∀ x ∈ vs, runTrial validate x = false) →
      tryVariants validate a e vs
        = ⟨vs.map (fun x => LogLine4.attemptLine a x false e), vs.length, none⟩ := by
  intro vs
  induction vs with
  | nil => intro _; rfl
  | cons v rest ih =>
    intro hfail
    have hv := hfail v (by simp)
    simp only [tryVariants, hv, if_neg (Bool.false_ne_true),
      ih (fun x hx => hfail x (by simp [hx]))]
    simp

theorem tryVariants_firstPass (validate : Variant → Except Unit Bool) (a : Nat) (e : ℚ)
    (v : Variant) (hv : runTrial validate v = true) :
    ∀ (pre post : List Variant), (∀ x ∈ pre, runTrial validate x = false) →
      tryVariants validate a e (pre ++ v :: post)
        = ⟨(pre.map (fun x => LogLine4.attemptLine a x false e))
             ++ [LogLine4.attemptLine a v true e],
           pre.length + 1, some v⟩ := by
  intro pre
  induction pre with
  | nil =>
    intro post _
    simp [tryVariants, hv]
  | cons x rest ih =>
    intro post hpre
    have hx := hpre x (by simp)
    have hr := ih post (fun y hy => hpre y (by simp [hy]))
    simp [tryVariants, hx, hr]

theorem tryVariants_lines_shape (validate : Variant → Except Unit Bool) (a : Nat) (e : ℚ) :
    ∀ vs : List Variant, ∀ x ∈ (tryVariants validate a e vs).lines,
      ∃ p ok, x = LogLine4.attemptLine a p ok e := by
  intro vs
  induction vs with
  | nil =>
    intro x hx
    simp [tryVariants] at hx
  | cons v rest ih =>
    intro x hx
    simp only [tryVariants] at hx
    by_cases hok : runTrial validate v = true
    · rw [if_pos hok] at hx
      simp only [List.mem_singleton] at hx
      exact ⟨v, _, hx⟩
    · rw [if_neg hok] at hx
      rcases List.mem_cons.mp hx with rfl | hx2
      · exact ⟨v, _, rfl⟩
      · exact ih x hx2

theorem run4loop_allfail (validate : Variant → Except Unit Bool) (clock : Nat → ℚ) :
    ∀ (cands : List (List Char)) (a : Nat),
      (∀ c ∈ cands, ∀ y ∈ build_variants c, runTrial validate y = false) →
      (run4loop validate clock cands a).found_info = none ∧
      (run4loop validate clock cands a).attempts = a + cands.length ∧
      (run4loop validate clock cands a).calls
        = (cands.map (fun c => (build_variants c).length)).sum := by
  intro cands
  induction cands with
  | nil =>
    intro a _
    simp [run4loop]
  | cons c rest ih =>
    intro a hfail
    have ht := tryVariants_allfail validate (a + 1) (clock a) (build_variants c)
      (hfail c (by simp))
    have hr := ih (a + 1) (fun x hx => hfail x (by simp [hx]))
    simp only [run4loop, ht]
    refine ⟨hr.1, ?_, ?_⟩
    · rw [hr.2.1]
      simp
      omega
    · rw [hr.2.2]
      simp

theorem run4loop_firstPass (validate : Variant → Except Unit Bool) (clock : Nat → ℚ)
    (c : List Char) (preV postV : List Variant) (v : Variant)
    (hsplit : build_variants c = preV ++ v :: postV)
    (hpreV : ∀ x ∈ preV, runTrial validate x = false)
    (hv : runTrial validate v = true) :
    ∀ (preC : List (List Char)) (postC : List (List Char)) (a : Nat),
      (∀ x ∈ preC, ∀ y ∈ build_variants x, runTrial validate y = false) →
      (run4loop validate clock (preC ++ c :: postC) a).attempts = a + preC.length + 1 ∧
      (run4loop validate clock (preC ++ c :: postC) a).calls
        = (preC.map (fun x => (build_variants x).length)).sum + preV.length + 1 ∧
      (run4loop validate clock (preC ++ c :: postC) a).found_info
        = some (c, v, a + preC.length + 1, clock (a + preC.length)) := by
  intro preC
  induction preC with
  | nil =>
    intro postC a _
    have ht := tryVariants_firstPass validate (a + 1) (clock a) v hv preV postV hpreV
    simp only [List.nil_append, run4loop, hsplit, ht]
    simp
  | cons x rest ih =>
    intro postC a hpreC
    have htx := tryVariants_allfail validate (a + 1) (clock a) (build_variants x)
      (hpreC x (by simp))
    have hr := ih postC (a + 1) (fun y hy => hpreC y (by simp [hy]))
    simp only [List.cons_append, run4loop, htx]
    refine ⟨?_, ?_, ?_⟩
    · show (run4loop validate clock (rest ++ c :: postC) (a + 1)).attempts = _
      rw [hr.1]
      simp
      omega
    · show (build_variants x).length
          + (run4loop validate clock (rest ++ c :: postC) (a + 1)).calls = _
      rw [hr.2.1]
      simp
      omega
    · show (run4loop validate clock (rest ++ c :: postC) (a + 1)).found_info = _
      rw [hr.2.2]
      have e1 : a + 1 + rest.length = a + (x :: rest).length := by
        simp
        omega
      rw [e1]

theorem run4loop_lines_shape (validate : Variant → Except Unit Bool) (clock : Nat → ℚ) :
    ∀ (cands : List (List Char)) (a : Nat),
      ∀ x ∈ (run4loop validate clock cands a).lines,
        ∃ i p ok e, x = LogLine4.attemptLine i p ok e := by
  intro cands
  induction cands with
  | nil =>
    intro a x hx
    simp [run4loop] at hx
  | cons c rest ih =>
    intro a x hx
    simp only [run4loop] at hx
    rcases hfound : (tryVariants validate (a + 1) (clock a) (build_variants c)).found with
      _ | v
    · rw [hfound] at hx
      simp only [List.mem_append] at hx
      rcases hx with hx1 | hx2
      · obtain ⟨p, ok, hpk⟩ := tryVariants_lines_shape validate (a + 1) (clock a)
          (build_variants c) x hx1
        exact ⟨a + 1, p, ok, clock a, hpk⟩
      · exact ih (a + 1) x hx2
    · rw [hfound] at hx
      obtain ⟨p, ok, hpk⟩ := tryVariants_lines_shape validate (a + 1) (clock a)
        (build_variants c) x hx
      exact ⟨a + 1, p, ok, clock a, hpk⟩

/-! ## Lemmas: the file-1 trial loop -/

theorem run1loop_firstPass (validate : List Char → Except Unit Bool) (clock : Nat → ℚ)
    (c : List Char) (hc : runTrial validate c = true) :
    ∀ (pre post : List (List Char)) (a : Nat),
      (∀ x ∈ pre, runTrial validate x = false) →
      (run1loop validate clock none (pre ++ c :: post) a).attempts = a + pre.length + 1 ∧
      (run1loop validate clock none (pre ++ c :: post) a).calls = pre.length + 1 ∧
      (run1loop validate clock none (pre ++ c :: post) a).found_password = some c := by
  intro pre
  induction pre with
  | nil =>
    intro post a _
    simp [run1loop, hc]
  | cons x rest ih =>
    intro post a hpre
    have hx := hpre x (by simp)
    have hr := ih post (a + 1) (fun y hy => hpre y (by simp [hy]))
    simp only [List.cons_append, run1loop, hx]
    refine ⟨?_, ?_, ?_⟩
    · simp only [if_neg (Bool.false_ne_true)]
      show (run1loop validate clock none (rest ++ c :: post) (a + 1)).attempts = _
      rw [hr.1]
      simp
      omega
    · simp only [if_neg (Bool.false_ne_true)]
      show (run1loop validate clock none (rest ++ c :: post) (a + 1)).calls + 1 = _
      rw [hr.2.1]
      simp
    · simp only [if_neg (Bool.false_ne_true)]
      show (run1loop validate clock none (rest ++ c :: post) (a + 1)).found_password = _
      rw [hr.2.2]

theorem map_clock_range (clock : Nat → ℚ) (a n : Nat) :
    (List.range (n + 1)).map (fun t => clock (a + t))
      = clock a :: (List.range n).map (fun t => clock (a + 1 + t)) := by
  rw [List.range_succ_eq_map, List.map_cons, List.map_map]
  congr 1
  apply List.map_congr_left
  intro t ht
  simp only [Function.comp_apply]
  congr 1
  omega

theorem run1loop_shape (validate : List Char → Except Unit Bool) (clock : Nat → ℚ)
    (cancel : Option Nat) :
    ∀ (cands : List (List Char)) (a : Nat),
      (run1loop validate clock cancel cands a).attempts
        = a + (run1loop validate clock cancel cands a).lines.length ∧
      (run1loop validate clock cancel cands a).calls
        = (run1loop validate clock cancel cands a).lines.length ∧
      (∀ t, t < (run1loop validate clock cancel cands a).lines.length →
        ∃ pw ok, (run1loop validate clock cancel cands a).lines[t]?
          = some (LogLine1.attemptLine (a + t + 1) pw ok (clock (a + t)))) ∧
      (run1loop validate clock cancel cands a).lines.filterMap attemptElapsed1
        = (List.range (run1loop validate clock cancel cands a).lines.length).map
            (fun t => clock (a + t)) := by
  intro cands
  induction cands with
  | nil =>
    intro a
    refine ⟨rfl, rfl, ?_, rfl⟩
    intro t ht
    simp [run1loop] at ht
  | cons c rest ih =>
    intro a
    by_cases hcan : cancel = some a
    · simp only [run1loop, if_pos hcan]
      refine ⟨rfl, rfl, ?_, rfl⟩
      intro t ht
      simp at ht
    · by_cases hok : runTrial validate c = true
      · simp only [run1loop, if_neg hcan, hok, if_true]
        refine ⟨rfl, rfl, ?_, ?_⟩
        · intro t ht
          simp only [List.length_cons, List.length_nil] at ht
          interval_cases t
          exact ⟨c, true, by simp⟩
        · simp [attemptElapsed1, List.range_succ]
      · have hr := ih (a + 1)
        simp only [run1loop, if_neg hcan, if_neg hok]
        refine ⟨?_, ?_, ?_, ?_⟩
        · show (run1loop validate clock cancel rest (a + 1)).attempts = _
          rw [hr.1]
          simp only [List.length_cons]
          omega
        · show (run1loop validate clock cancel rest (a + 1)).calls + 1 = _
          rw [hr.2.1]
          simp
        · intro t ht
          match t with
          | 0 => exact ⟨c, runTrial validate c, by simp⟩
          | t + 1 =>
            simp only [List.length_cons, Nat.add_lt_add_iff_right] at ht
            obtain ⟨pw, ok, hline⟩ := hr.2.2.1 t ht
            refine ⟨pw, ok, ?_⟩
            rw [List.getElem?_cons_succ, hline]
            have e1 : a + 1 + t = a + (t + 1) := by omega
            rw [e1]
        · show (LogLine1.attemptLine (a + 1) c (runTrial validate c) (clock a) ::
              (run1loop validate clock cancel rest (a + 1)).lines).filterMap attemptElapsed1
            = _
          simp only [List.filterMap_cons, attemptElapsed1, List.length_cons]
          rw [hr.2.2.2, map_clock_range]

/-! ## Lemmas: replacing a raising validator by a FAIL-returning one -/

theorem run1loop_wrap (validate : List Char → Except Unit Bool) (clock : Nat → ℚ)
    (cancel : Option Nat) :
    ∀ (cands : List (List Char)) (a : Nat),
      run1loop (fun x => Except.ok (runTrial validate x)) clock cancel cands a
        = run1loop validate clock cancel cands a := by
  intro cands
  induction cands with
  | nil => intro a; rfl
  | cons c rest ih =>
    intro a
    simp only [run1loop, ih (a + 1)]
    rfl

theorem tryVariants_wrap (validate : Variant → Except Unit Bool) (a : Nat) (e : ℚ) :
    ∀ vs : List Variant,
      tryVariants (fun x => Except.ok (runTrial validate x)) a e vs
        = tryVariants validate a e vs := by
  intro vs
  induction vs with
  | nil => rfl
  | cons v rest ih =>
    simp only [tryVariants, ih]
    rfl

theorem run4loop_wrap (validate : Variant → Except Unit Bool) (clock : Nat → ℚ) :
    ∀ (cands : List (List Char)) (a : Nat),
      run4loop (fun x => Except.ok (runTrial validate x)) clock cands a
        = run4loop validate clock cands a := by
  intro cands
  induction cands with
  | nil => intro a; rfl
  | cons c rest ih =>
    intro a
    simp only [run4loop, tryVariants_wrap, ih (a + 1)]

/-! ## Claim theorems: C3, C4, C5 -/

theorem sum_variant_lengths {v : Nat} :
    ∀ cands : List (List Char), (∀ c ∈ cands, (build_variants c).length = v) →
      (cands.map (fun c => (build_variants c).length)).sum = cands.length * v := by
  intro cands
  induction cands with
  | nil => intro _; simp
  | cons c rest ih =>
    intro hv
    rw [List.map_cons, List.sum_cons, hv c (by simp),
      ih (fun x hx => hv x (by simp [hx])), List.length_cons]
    ring

/-- C3 counterexample: over one candidate (`"0063"`) whose expansion yields 8
unique variants, an always-false run calls the Validator 8 times but the final
attempt counter is 1, not `N × v = 8`: the counter increments once per
candidate, not once per variant. -/
theorem C3_counterexample :
    (run4 (fun _ => Except.ok false) (fun _ => 0) [("0063".toList)]).calls = 1 * 8 ∧
    (run4 (fun _ => Except.ok false) (fun _ => 0) [("0063".toList)]).attempts = 1 ∧
    (run4 (fun _ => Except.ok false) (fun _ => 0) [("0063".toList)]).attempts ≠ 1 * 8 := by
  decide

/-- C3 amended: the v-4 runner's attempt counter increments once per
candidate; with an always-false Validator over `N` candidates whose expansion
yields `v` unique variants each, the run issues exactly `N × v` Validator
calls, the final attempt counter equals `N`, and the run reports exhaustion
(no credential found). -/
theorem C3_attempt_counting (validate : Variant → Except Unit Bool) (clock : Nat → ℚ)
    (cands : List (List Char)) (v : Nat)
    (hfail : ∀ x, runTrial validate x = false)
    (hv : ∀ c ∈ cands, (build_variants c).length = v) :
    (run4 validate clock cands).calls = cands.length * v ∧
    (run4 validate clock cands).attempts = cands.length ∧
    (run4 validate clock cands).found_info = none := by
  have h := run4loop_allfail validate clock cands 0 (fun c _ y _ => hfail y)
  have hcalls : (run4 validate clock cands).calls = (run4loop validate clock cands 0).calls := rfl
  have hatt : (run4 validate clock cands).attempts = (run4loop validate clock cands 0).attempts := rfl
  have hfound : (run4 validate clock cands).found_info
      = (run4loop validate clock cands 0).found_info := rfl
  refine ⟨?_, ?_, ?_⟩
  · rw [hcalls, h.2.2, sum_variant_lengths cands hv]
  · rw [hatt, h.2.1, Nat.zero_add]
  · rw [hfound, h.1]

/-- Witness for C3 amended: two candidates, always-false validator, 8 variants
each: 16 calls, counter 2, exhaustion. -/
theorem C3_attempt_counting_witness :
    (run4 (fun _ => Except.ok false) (fun _ => 0)
        [("0063".toList), ("0064".toList)]).calls = 2 * 8 ∧
    (run4 (fun _ => Except.ok false) (fun _ => 0)
        [("0063".toList), ("0064".toList)]).attempts = 2 ∧
    (run4 (fun _ => Except.ok false) (fun _ => 0)
        [("0063".toList), ("0064".toList)]).found_info = none :=
  C3_attempt_counting (fun _ => Except.ok false) (fun _ => 0)
    [("0063".toList), ("0064".toList)] 8 (fun _ => rfl) (by decide)

/-- C4 counterexample: in the v-4 runner, a validator that passes on the 2nd
variant of the first candidate stops the run after exactly 2 Validator calls,
but the final attempt counter is 1, not the 1-based index (2) of the
successful trial. -/
theorem C4_counterexample :
    (run4 (fun x => Except.ok (decide (x = Variant.str ("3600".toList))))
        (fun _ => 0) [("0063".toList)]).calls = 2 ∧
    (run4 (fun x => Except.ok (decide (x = Variant.str ("3600".toList))))
        (fun _ => 0) [("0063".toList)]).attempts = 1 ∧
    (run4 (fun x => Except.ok (decide (x = Variant.str ("3600".toList))))
        (fun _ => 0) [("0063".toList)]).attempts ≠ 2 := by
  decide

/-- C4 amended: after the first trial returning PASS, no further Validator
calls occur in either runner: the total number of Validator calls equals the
1-based index of the successful trial.  In the file-1 runner (one trial per
candidate) the final attempt counter equals that index and the successful
candidate is recorded; in the v-4 runner the final attempt counter equals the
1-based index of the successful candidate, and the successful candidate and
variant are recorded. -/
theorem C4_stops_on_first_pass (validate1 : List Char → Except Unit Bool) (clock1 : Nat → ℚ)
    (pre post : List (List Char)) (c : List Char)
    (hpre : ∀ x ∈ pre, runTrial validate1 x = false)
    (hc : runTrial validate1 c = true)
    (validate4 : Variant → Except Unit Bool) (clock4 : Nat → ℚ)
    (preC postC : List (List Char)) (c4 : List Char)
    (preV postV : List Variant) (v : Variant)
    (hpreC : ∀ x ∈ preC, ∀ y ∈ build_variants x, runTrial validate4 y = false)
    (hsplit : build_variants c4 = preV ++ v :: postV)
    (hpreV : ∀ x ∈ preV, runTrial validate4 x = false)
    (hv : runTrial validate4 v = true) :
    (run1 validate1 clock1 none (pre ++ c :: post)).attempts = pre.length + 1 ∧
    (run1 validate1 clock1 none (pre ++ c :: post)).calls = pre.length + 1 ∧
    (run1 validate1 clock1 none (pre ++ c :: post)).found_password = some c ∧
    (run4 validate4 clock4 (preC ++ c4 :: postC)).calls
      = (preC.map (fun x => (build_variants x).length)).sum + preV.length + 1 ∧
    (run4 validate4 clock4 (preC ++ c4 :: postC)).attempts = preC.length + 1 ∧
    (run4 validate4 clock4 (preC ++ c4 :: postC)).found_info
      = some (c4, v, preC.length + 1, clock4 preC.length) := by
  have h1 := run1loop_firstPass validate1 clock1 c hc pre post 0 hpre
  have h4 := run4loop_firstPass validate4 clock4 c4 preV postV v hsplit hpreV hv
    preC postC 0 hpreC
  refine ⟨?_, h1.2.1, h1.2.2, h4.2.1, ?_, ?_⟩
  · show (run1loop validate1 clock1 none (pre ++ c :: post) 0).attempts = _
    rw [h1.1, Nat.zero_add]
  · show (run4loop validate4 clock4 (preC ++ c4 :: postC) 0).attempts = _
    rw [h4.1, Nat.zero_add]
  · show (run4loop validate4 clock4 (preC ++ c4 :: postC) 0).found_info = _
    rw [h4.2.2, Nat.zero_add]

/-- Witness for C4 amended: file-1 runner passing on the 2nd candidate, v-4
runner passing on the 2nd variant of the 1st candidate. -/
theorem C4_stops_on_first_pass_witness :
    (run1 (fun x => Except.ok (decide (x = "07".toList))) (fun _ => 0) none
        [("00".toList), ("07".toList)]).attempts = 2 ∧
    (run4 (fun x => Except.ok (decide (x = Variant.str ("3600".toList))))
        (fun _ => 0) [("0063".toList)]).found_info
      = some (("0063".toList), Variant.str ("3600".toList), 1, 0) := by
  have h := C4_stops_on_first_pass
    (fun x => Except.ok (decide (x = "07".toList))) (fun _ => 0)
    [("00".toList)] [] ("07".toList) (by decide) (by decide)
    (fun x => Except.ok (decide (x = Variant.str ("3600".toList)))) (fun _ => 0)
    [] [] ("0063".toList)
    [Variant.str ("0063".toList)]
    [Variant.bytes (utf8Encode ("0063".toList)),
     Variant.bytes (utf8Encode ("3600".toList)),
     Variant.bytes (utf16leEncode ("0063".toList)),
     Variant.bytes (utf16leEncode ("3600".toList)),
     Variant.bytes (utf16beEncode ("0063".toList)),
     Variant.bytes (utf16beEncode ("3600".toList))]
    (Variant.str ("3600".toList))
    (by intro x hx; simp at hx) (by decide) (by decide) (by decide)
  exact ⟨h.1, h.2.2.2.2.2⟩

/-- C5: a Validator exception during a single trial is recorded as a FAIL and
never propagates: the guarded trial of a raising validator returns `false`,
and an entire run with a raising validator is identical (log, counters,
outcome) to the run whose validator returns `false` at exactly the trials
where the original raised. -/
theorem C5_exception_treated_as_fail (validate1 : List Char → Except Unit Bool)
    (validate4 : Variant → Except Unit Bool) (clock1 clock4 : Nat → ℚ)
    (cancel : Option Nat) (cands1 cands4 : List (List Char)) :
    (∀ (x : Variant) (e : Unit), validate4 x = Except.error e → runTrial validate4 x = false) ∧
    (∀ (x : List Char) (e : Unit), validate1 x = Except.error e → runTrial validate1 x = false) ∧
    run1 (fun x => Except.ok (runTrial validate1 x)) clock1 cancel cands1
      = run1 validate1 clock1 cancel cands1 ∧
    run4 (fun x => Except.ok (runTrial validate4 x)) clock4 cands4
      = run4 validate4 clock4 cands4 := by
  refine ⟨?_, ?_, ?_, ?_⟩
  · intro x e h
    unfold runTrial
    rw [h]
  · intro x e h
    unfold runTrial
    rw [h]
  · unfold run1
    rw [run1loop_wrap]
  · unfold run4
    rw [run4loop_wrap]

/-- Witness for C5: a validator that always raises records FAIL. -/
theorem C5_exception_treated_as_fail_witness :
    runTrial (fun _ : Variant => (Except.error () : Except Unit Bool)) (Variant.str []) = false :=
  (C5_exception_treated_as_fail (fun _ => Except.ok false) (fun _ => Except.error ())
    (fun _ => 0) (fun _ => 0) none [] []).1 (Variant.str []) () rfl

/-! ## Lemmas: log structure -/

theorem run1loop_lines_shape (validate : List Char → Except Unit Bool) (clock : Nat → ℚ)
    (cancel : Option Nat) (cands : List (List Char)) (a : Nat) :
    ∀ x ∈ (run1loop validate clock cancel cands a).lines,
      ∃ i pw ok e, x = LogLine1.attemptLine i pw ok e := by
  intro x hx
  obtain ⟨t, hget⟩ := List.mem_iff_getElem?.mp hx
  have ht : t < (run1loop validate clock cancel cands a).lines.length := by
    by_contra hge
    rw [List.getElem?_eq_none (Nat.le_of_not_lt hge)] at hget
    exact Option.noConfusion hget
  obtain ⟨pw, ok, hline⟩ := (run1loop_shape validate clock cancel cands a).2.2.1 t ht
  rw [hline] at hget
  exact ⟨a + t + 1, pw, ok, clock (a + t), (Option.some.injEq _ _ ▸ hget).symm⟩

theorem countP_summary1_attemptLines (lines : List LogLine1)
    (h : ∀ x ∈ lines, ∃ i pw ok e, x = LogLine1.attemptLine i pw ok e) :
    lines.countP isSummary1 = 0 := by
  rw [List.countP_eq_zero]
  intro x hx
  obtain ⟨i, pw, ok, e, rfl⟩ := h x hx
  simp [isSummary1]

theorem countP_attemptLines4 (p : LogLine4 → Bool) (lines : List LogLine4)
    (hp : ∀ i pl ok e, p (LogLine4.attemptLine i pl ok e) = false)
    (h : ∀ x ∈ lines, ∃ i pl ok e, x = LogLine4.attemptLine i pl ok e) :
    lines.countP p = 0 := by
  rw [List.countP_eq_zero]
  intro x hx
  obtain ⟨i, pl, ok, e, rfl⟩ := h x hx
  simp [hp]

theorem run1_log_eq (validate : List Char → Except Unit Bool) (clock : Nat → ℚ)
    (cancel : Option Nat) (cands : List (List Char)) :
    (run1 validate clock cancel cands).log
      = header1 ++ (run1loop validate clock cancel cands 0).lines
        ++ [match (run1loop validate clock cancel cands 0).found_password with
            | some pw => LogLine1.successLine pw
                (run1loop validate clock cancel cands 0).attempts
                (clock (run1loop validate clock cancel cands 0).attempts)
            | none => LogLine1.stoppedLine
                (run1loop validate clock cancel cands 0).attempts
                (clock (run1loop validate clock cancel cands 0).attempts)] := rfl

theorem run4_log_eq (validate : Variant → Except Unit Bool) (clock : Nat → ℚ)
    (cands : List (List Char)) :
    (run4 validate clock cands).log
      = header4 ++ (run4loop validate clock cands 0).lines
        ++ (match (run4loop validate clock cands 0).found_info with
            | some (core, v, a1, el) =>
              [LogLine4.blankLine, LogLine4.successLine core v a1 el,
               LogLine4.totalsLine (run4loop validate clock cands 0).attempts
                 (clock (run4loop validate clock cands 0).attempts)]
            | none =>
              [LogLine4.blankLine, LogLine4.completeLine,
               LogLine4.totalsLine (run4loop validate clock cands 0).attempts
                 (clock (run4loop validate clock cands 0).attempts)]) := rfl

/-! ## Claim theorems: C6, C7 -/

/-- C6 counterexample: file 1 writes the same `STOPPED` summary whether the
keyspace was exhausted without success (first two conjuncts: a complete
always-false run over one candidate) or the run was cancelled mid-run (next
two conjuncts: interrupted after 1 of 2 candidates) — exhaustion does not
produce a `COMPLETE` summary there; and in v-4 the terminal block is a
two-line summary (`COMPLETE: ...` then `Total attempts: ...`), not a single
summary line carrying the outcome together with attempts and time. -/
theorem C6_counterexample :
    (run1 (fun _ => Except.ok false) (fun _ => 0) none [("0".toList)]).found_password
      = none ∧
    (run1 (fun _ => Except.ok false) (fun _ => 0) none [("0".toList)]).log.getLast?
      = some (LogLine1.stoppedLine 1 0) ∧
    (run1 (fun _ => Except.ok false) (fun _ => 0) (some 1)
        [("0".toList), ("1".toList)]).attempts = 1 ∧
    (run1 (fun _ => Except.ok false) (fun _ => 0) (some 1)
        [("0".toList), ("1".toList)]).log.getLast? = some (LogLine1.stoppedLine 1 0) ∧
    (run4 (fun _ => Except.ok false) (fun _ => 0) [("0".toList)]).log.drop 9
      = [LogLine4.completeLine, LogLine4.totalsLine 1 0] := by
  decide

/-- C6 amended: at termination, file 1 appends exactly one summary line, the
last line of the log, whose kind is `SUCCESS` (with the found password) when
a trial passed and `STOPPED` otherwise — the same `STOPPED` summary covers
both cancellation and exhaustion — carrying total attempts and total elapsed
time; v-4 appends exactly one outcome line (`SUCCESS` with the found
candidate and variant, or `COMPLETE` on exhaustion; it has no cancellation
outcome) and exactly one separate totals line with total attempts and total
elapsed time, as the final block of the log. -/
theorem C6_termination_summary (validate1 : List Char → Except Unit Bool) (clock1 : Nat → ℚ)
    (cancel : Option Nat) (cands1 : List (List Char))
    (validate4 : Variant → Except Unit Bool) (clock4 : Nat → ℚ)
    (cands4 : List (List Char)) :
    (run1 validate1 clock1 cancel cands1).log.countP isSummary1 = 1 ∧
    (run1 validate1 clock1 cancel cands1).log.getLast?
      = some (match (run1 validate1 clock1 cancel cands1).found_password with
          | some pw => LogLine1.successLine pw (run1 validate1 clock1 cancel cands1).attempts
              (clock1 (run1 validate1 clock1 cancel cands1).attempts)
          | none => LogLine1.stoppedLine (run1 validate1 clock1 cancel cands1).attempts
              (clock1 (run1 validate1 clock1 cancel cands1).attempts)) ∧
    (run4 validate4 clock4 cands4).log.countP isSummary4 = 1 ∧
    (run4 validate4 clock4 cands4).log.countP isTotals4 = 1 ∧
    List.IsSuffix (match (run4 validate4 clock4 cands4).found_info with
        | some (core, v, a1, el) =>
          [LogLine4.blankLine, LogLine4.successLine core v a1 el,
           LogLine4.totalsLine (run4 validate4 clock4 cands4).attempts
             (clock4 (run4 validate4 clock4 cands4).attempts)]
        | none =>
          [LogLine4.blankLine, LogLine4.completeLine,
           LogLine4.totalsLine (run4 validate4 clock4 cands4).attempts
             (clock4 (run4 validate4 clock4 cands4).attempts)])
      (run4 validate4 clock4 cands4).log := by
  refine ⟨?_, ?_, ?_, ?_, ?_⟩
  · rw [run1_log_eq, List.countP_append, List.countP_append]
    rw [countP_summary1_attemptLines _ (run1loop_lines_shape validate1 clock1 cancel cands1 0)]
    rcases (run1loop validate1 clock1 cancel cands1 0).found_password with _ | pw <;>
      simp [isSummary1, header1, List.countP_cons, List.countP_nil]
  · have hfp : (run1 validate1 clock1 cancel cands1).found_password
        = (run1loop validate1 clock1 cancel cands1 0).found_password := rfl
    have hat : (run1 validate1 clock1 cancel cands1).attempts
        = (run1loop validate1 clock1 cancel cands1 0).attempts := rfl
    rw [run1_log_eq, List.getLast?_concat, hfp, hat]
  · rw [run4_log_eq, List.countP_append, List.countP_append]
    rw [countP_attemptLines4 isSummary4 _ (fun _ _ _ _ => rfl)
      (run4loop_lines_shape validate4 clock4 cands4 0)]
    rcases (run4loop validate4 clock4 cands4 0).found_info with _ | ⟨core, v, a1, el⟩ <;>
      simp [isSummary4, header4, List.countP_cons, List.countP_nil]
  · rw [run4_log_eq, List.countP_append, List.countP_append]
    rw [countP_attemptLines4 isTotals4 _ (fun _ _ _ _ => rfl)
      (run4loop_lines_shape validate4 clock4 cands4 0)]
    rcases (run4loop validate4 clock4 cands4 0).found_info with _ | ⟨core, v, a1, el⟩ <;>
      simp [isTotals4, header4, List.countP_cons, List.countP_nil]
  · exact ⟨header4 ++ (run4loop validate4 clock4 cands4 0).lines, rfl⟩

/-- C7 counterexample: an empty run has 6 log lines — 5 header lines (start
time, document reference, length, pattern, CSV column titles) plus 1 summary
line — not the 4 + 0 + 1 = 5 the claim predicts: the claim misses the CSV
column-title header line, which is not of attempt-line form. -/
theorem C7_counterexample :
    (run1 (fun _ => Except.ok false) (fun _ => 0) none []).attempts = 0 ∧
    (run1 (fun _ => Except.ok false) (fun _ => 0) none []).log.length = 6 ∧
    (run1 (fun _ => Except.ok false) (fun _ => 0) none []).log.length ≠ 4 + 0 + 1 ∧
    (run1 (fun _ => Except.ok false) (fun _ => 0) none []).log[4]?
      = some LogLine1.columnsLine := by
  decide

/-- C7 amended: after a file-1 run of `A` attempts the log contains exactly 5
header lines (start time, document reference, length, pattern, CSV column
titles) followed by exactly `A` attempt lines of the form
`index, password, PASS|FAIL, elapsed` with 1-based consecutive indices,
followed by exactly 1 summary line; under a monotone clock the
elapsed-seconds values of the attempt lines are exactly the first `A` clock
readings, non-decreasing in order of appearance. -/
theorem C7_log_structure (validate : List Char → Except Unit Bool) (clock : Nat → ℚ)
    (cancel : Option Nat) (cands : List (List Char))
    (hmono : ∀ i j : Nat, i ≤ j → clock i ≤ clock j) :
    (run1 validate clock cancel cands).log.length
      = 5 + (run1 validate clock cancel cands).attempts + 1 ∧
    (run1 validate clock cancel cands).log.take 5 = header1 ∧
    (∀ t, t < (run1 validate clock cancel cands).attempts →
      ∃ pw ok, ((run1 validate clock cancel cands).log.drop 5)[t]?
        = some (LogLine1.attemptLine (t + 1) pw ok (clock t))) ∧
    (run1 validate clock cancel cands).log.countP isSummary1 = 1 ∧
    (run1 validate clock cancel cands).log.filterMap attemptElapsed1
      = (List.range (run1 validate clock cancel cands).attempts).map clock ∧
    ((run1 validate clock cancel cands).log.filterMap attemptElapsed1).Pairwise (· ≤ ·) := by
  have hs := run1loop_shape validate clock cancel cands 0
  have hatt : (run1 validate clock cancel cands).attempts
      = (run1loop validate clock cancel cands 0).lines.length := by
    show (run1loop validate clock cancel cands 0).attempts = _
    rw [hs.1, Nat.zero_add]
  have hfm : (run1 validate clock cancel cands).log.filterMap attemptElapsed1
      = (List.range (run1 validate clock cancel cands).attempts).map clock := by
    rw [run1_log_eq, List.filterMap_append, List.filterMap_append]
    have h1 : List.filterMap attemptElapsed1 header1 = [] := rfl
    have h3 : ∀ s : LogLine1, isSummary1 s = true → List.filterMap attemptElapsed1 [s] = [] := by
      intro s hsum
      cases s <;> simp_all [isSummary1, attemptElapsed1]
    rw [h1, hatt, hs.2.2.2]
    have h3' : List.filterMap attemptElapsed1
        [match (run1loop validate clock cancel cands 0).found_password with
         | some pw => LogLine1.successLine pw (run1loop validate clock cancel cands 0).attempts
             (clock (run1loop validate clock cancel cands 0).attempts)
         | none => LogLine1.stoppedLine (run1loop validate clock cancel cands 0).attempts
             (clock (run1loop validate clock cancel cands 0).attempts)] = [] := by
      rcases (run1loop validate clock cancel cands 0).found_password with _ | pw <;> rfl
    rw [h3']
    simp only [List.nil_append, List.append_nil]
    apply List.map_congr_left
    intro t _
    rw [Nat.zero_add]
  refine ⟨?_, ?_, ?_, ?_, hfm, ?_⟩
  · rw [run1_log_eq, hatt]
    simp [header1]
    omega
  · rw [run1_log_eq, List.append_assoc,
      show (5 : Nat) = header1.length from rfl, List.take_left]
  · intro t ht
    rw [hatt] at ht
    obtain ⟨pw, ok, hline⟩ := hs.2.2.1 t ht
    refine ⟨pw, ok, ?_⟩
    rw [run1_log_eq, List.append_assoc,
      show (5 : Nat) = header1.length from rfl, List.drop_left,
      List.getElem?_append_left ht, hline, Nat.zero_add]
  · rw [run1_log_eq, List.countP_append, List.countP_append]
    rw [countP_summary1_attemptLines _ (run1loop_lines_shape validate clock cancel cands 0)]
    rcases (run1loop validate clock cancel cands 0).found_password with _ | pw <;>
      simp [isSummary1, header1, List.countP_cons, List.countP_nil]
  · rw [hfm]
    refine List.Pairwise.map clock ?_ (List.pairwise_lt_range _)
    intro a b hab
    exact hmono a b (Nat.le_of_lt hab)

/-- Witness for C7 amended at a concrete one-candidate run with the constant
clock. -/
theorem C7_log_structure_witness :
    (run1 (fun _ => Except.ok false) (fun _ => 0) none [("0".toList)]).log.length
      = 5 + (run1 (fun _ => Except.ok false) (fun _ => 0) none [("0".toList)]).attempts
        + 1 :=
  (C7_log_structure (fun _ => Except.ok false) (fun _ => 0) none [("0".toList)]
    (fun _ _ _ => le_refl 0)).1

/-! ## Claim theorems: C8, C9 -/

/-- C8: the progress report computes the rate as
`attempt / max(1e-6, elapsed)` — the divisor is positive for every elapsed
value, so near-zero elapsed time never causes a division error, and whenever
`elapsed ≥ 1e-6` the rate equals `attempt / elapsed` — and the ETA as
`(total - attempt) / rate`; at attempt 5000, elapsed 10.0 s and total
keyspace 10000 the rate is 500/s and the ETA is 10.0 s. -/
theorem C8_progress_math :
    (∀ e : ℚ, 0 < max (1 / 1000000) e) ∧
    (∀ (a : Nat) (e : ℚ), (1 / 1000000 : ℚ) ≤ e → progress_rate a e = (a : ℚ) / e) ∧
    progress_rate 5000 10 = 500 ∧
    progress_eta 5000 10000 10 = some 10 := by
  have hmax : max (1 / 1000000 : ℚ) 10 = 10 := max_eq_right (by norm_num)
  have hrate : progress_rate 5000 10 = 500 := by
    unfold progress_rate
    rw [hmax]
    norm_num
  refine ⟨?_, ?_, hrate, ?_⟩
  · intro e
    exact lt_max_iff.mpr (Or.inl (by norm_num))
  · intro a e he
    unfold progress_rate
    rw [max_eq_right he]
  · unfold progress_eta
    rw [hrate]
    norm_num

/-- Witness for C8 at elapsed 10 s. -/
theorem C8_progress_math_witness :
    progress_rate 5000 10 = ((5000 : Nat) : ℚ) / 10 :=
  C8_progress_math.2.1 5000 10 (by norm_num)

/-- C9: in the pypdf backend path, the decode loop over `utf-8`, `utf-16-le`,
`utf-16-be`, `latin1` always succeeds for every byte payload, because
`latin1` decodes any byte sequence; hence the fallback branch substituting an
empty-string credential is unreachable: the credential actually used is
always the result of the first successful decoding. -/
theorem C9_latin1_fallback_unreachable (bs : List Nat) :
    (pypdf_decode_loop bs).isSome = true ∧
    pypdf_pwd bs = (pypdf_decode_loop bs).getD [] := by
  have h : (pypdf_decode_loop bs).isSome = true := by
    unfold pypdf_decode_loop
    cases h8 : utf8DecodeStr bs with
    | some s => rfl
    | none =>
      cases hle : utf16leDecodeStr bs with
      | some s => rfl
      | none =>
        cases hbe : utf16beDecodeStr bs with
        | some s => rfl
        | none => rfl
  refine ⟨h, ?_⟩
  unfold pypdf_pwd
  cases hd : pypdf_decode_loop bs with
  | some s => rfl
  | none =>
    rw [hd] at h
    simp at h

end PdfCrack
